import Mathlib

/-!
Verification of the `ostdl` subtitle downloader core against its design
specification.  The Rust sources (`src/hash.rs`, `src/subtitle.rs`,
`src/api.rs`, `src/main.rs`) are shallowly embedded below: files are lists
of byte values, 64-bit arithmetic is `Nat` arithmetic modulo `2 ^ 64`,
fallible operations return `Option`, and a panicking code path is a
distinguished `Outcome.panicked` value.
-/

/-! ## Fingerprint generator (`src/hash.rs`) -/

/-- `2 ^ 64`, the modulus of wrapping `u64` arithmetic. -/
def U64MOD : Nat := 2 ^ 64

/-- `CHUNKSIZE` from `hash.rs`: the size in bytes of each hashed window. -/
def CHUNKSIZE : Nat := 65536

/-- Little-endian interpretation of a byte list as an unsigned integer.
For an 8-byte chunk of a file this is exactly the `u64` word that the
`mem::transmute` in `hash_block` produces on a little-endian machine. -/
def le64 : List Nat → Nat
  | [] => 0
  | b :: rest => b + 256 * le64 rest

/-- Splits a buffer into consecutive 8-byte groups and interprets each as a
little-endian word: the `[u64; CHUNKSIZE/8]` view of the read buffer. -/
def words (buf : List Nat) : List Nat :=
  match buf with
  | [] => []
  | b :: rest => le64 ((b :: rest).take 8) :: words ((b :: rest).drop 8)
termination_by buf.length
decreasing_by simp; omega

/-- Models `read_exact` on a file positioned at `pos`: succeeds with the next
`CHUNKSIZE` bytes exactly when they are all present. -/
def readExact (file : List Nat) (pos : Nat) : Option (List Nat) :=
  if pos + CHUNKSIZE ≤ file.length then some ((file.drop pos).take CHUNKSIZE)
  else none

/-- The wrapping sum `fold(Wrapping(0), |sum, &i| sum + Wrapping(i))`. -/
def wrapSum (l : List Nat) : Nat :=
  l.foldl (fun s i => (s + i) % U64MOD) 0

/-- `hash_block` from `hash.rs`: `read_exact` a `CHUNKSIZE` buffer at `pos`,
reinterpret it as little-endian `u64` words and sum them with wraparound. -/
def hash_block (file : List Nat) (pos : Nat) : Option Nat :=
  match readExact file pos with
  | none => none
  | some buf => some (wrapSum (words buf))

/-- `size_and_hash` from `hash.rs`: head chunk, seek to end for the size,
tail chunk, and finally `(fsize, fsize + c1 + c2)` with wrapping adds. -/
def size_and_hash (file : List Nat) : Option (Nat × Nat) :=
  match hash_block file 0 with
  | none => none
  | some c1 =>
    let fsize := file.length
    let seekto := if fsize > CHUNKSIZE then fsize - CHUNKSIZE else 0
    match hash_block file seekto with
    | none => none
    | some c2 => some (fsize, (fsize + c1 + c2) % U64MOD)

/-- The little-endian `u64` words of the `CHUNKSIZE`-byte window of `file`
starting at `pos` (the word view described in the specification). -/
def chunkWords (file : List Nat) (pos : Nat) : List Nat :=
  words ((file.drop pos).take CHUNKSIZE)

/-- The wraparound sum of the words of the window starting at `pos`. -/
def chunkSum (file : List Nat) (pos : Nat) : Nat :=
  (chunkWords file pos).sum % U64MOD

/-! ### Historical revision of the hash in `src/main.rs`

`main.rs`'s `hash_block` differs from `hash.rs`'s in one way: it calls
`file.read(&mut buf)?` instead of `file.read_exact(&mut buf)?`.  A plain
`read` on a regular file fills the buffer with the bytes that remain (at
most `CHUNKSIZE`) and never fails on a short file; the rest of the
zero-initialised buffer `[0u8; CHUNKSIZE]` stays zero. -/

/-- The buffer produced by `let mut buf = [0u8; CHUNKSIZE]; file.read(&mut buf)`
at position `pos`: the available bytes followed by the remaining zeroes. -/
def main_read_buf (file : List Nat) (pos : Nat) : List Nat :=
  ((file.drop pos).take CHUNKSIZE) ++
    List.replicate (CHUNKSIZE - ((file.drop pos).take CHUNKSIZE).length) 0

/-- `hash_block` from `main.rs` (the `read`-based revision): never fails. -/
def main_hash_block (file : List Nat) (pos : Nat) : Nat :=
  wrapSum (words (main_read_buf file pos))

/-- `size_and_hash` from `main.rs`: same structure as `hash.rs`'s but built
on the non-failing `main_hash_block`. -/
def main_size_and_hash (file : List Nat) : Nat × Nat :=
  let c1 := main_hash_block file 0
  let fsize := file.length
  let seekto := if fsize > CHUNKSIZE then fsize - CHUNKSIZE else 0
  let c2 := main_hash_block file seekto
  (fsize, (fsize + c1 + c2) % U64MOD)

/-! ### Basic lemmas about the hash model -/

/-- The step-by-step wrapping fold agrees with summing first and reducing. -/
theorem wrapSum_go (l : List Nat) :
    ∀ a : Nat, a < U64MOD →
      l.foldl (fun s i => (s + i) % U64MOD) a = (a + l.sum) % U64MOD := by
  induction l with
  | nil => intro a ha; simp [Nat.mod_eq_of_lt ha]
  | cons x xs ih =>
    intro a ha
    simp only [List.foldl_cons, List.sum_cons]
    rw [ih _ (Nat.mod_lt _ (by norm_num [U64MOD])), Nat.mod_add_mod]
    ring_nf

/-- `wrapSum` is the list sum modulo `2 ^ 64`. -/
theorem wrapSum_eq_sum_mod (l : List Nat) : wrapSum l = l.sum % U64MOD := by
  simpa using wrapSum_go l 0 (by norm_num [U64MOD])

/-- On a long-enough file, `hash_block` succeeds and computes the wraparound
sum of the words of the window at `pos`. -/
theorem hash_block_of_le (file : List Nat) (pos : Nat)
    (h : pos + CHUNKSIZE ≤ file.length) :
    hash_block file pos = some (chunkSum file pos) := by
  simp [hash_block, readExact, h, chunkSum, chunkWords, wrapSum_eq_sum_mod]

/-- On a too-short window, `hash_block` fails. -/
theorem hash_block_of_lt (file : List Nat) (pos : Nat)
    (h : file.length < pos + CHUNKSIZE) :
    hash_block file pos = none := by
  unfold hash_block readExact
  rw [if_neg (by omega)]

/-- Unfolding equation for `words` at a nonempty buffer. -/
theorem words_cons (b : Nat) (rest : List Nat) :
    words (b :: rest) = le64 ((b :: rest).take 8) :: words ((b :: rest).drop 8) := by
  rw [words]

/-- A run of zero bytes decodes to the word `0`. -/
theorem le64_replicate_zero (k : Nat) : le64 (List.replicate k 0) = 0 := by
  induction k with
  | zero => rfl
  | succ n ih => rw [List.replicate_succ, le64, ih]

/-- Every word of an all-zero buffer is `0`, so the word sum is `0`. -/
theorem words_replicate_zero_sum (k : Nat) : (words (List.replicate k 0)).sum = 0 := by
  induction k using Nat.strong_induction_on with
  | _ k ih =>
    cases k with
    | zero => simp [words]
    | succ n =>
      rw [List.replicate_succ, words_cons]
      rw [← List.replicate_succ, List.take_replicate, List.drop_replicate]
      rw [List.sum_cons, le64_replicate_zero, ih (n + 1 - 8) (by omega)]

/-- An all-zero window has wraparound word sum `0`. -/
theorem chunkSum_replicate_zero (n pos : Nat) :
    chunkSum (List.replicate n 0) pos = 0 := by
  unfold chunkSum chunkWords
  rw [List.drop_replicate, List.take_replicate, words_replicate_zero_sum]
  rfl

/-- C1: for every file of at least `65536` bytes, `size_and_hash` returns
`(fsize, (fsize + chunk1 + chunk2) mod 2 ^ 64)` where `chunk1` is the
wraparound sum of the first `8192` little-endian `u64` words and `chunk2`
the wraparound sum of the words of the window starting at
`max (fsize - 65536) 0` (which is `fsize - 65536` in truncated `Nat`
subtraction). -/
theorem C1_size_and_hash (file : List Nat) (h : 65536 ≤ file.length) :
    size_and_hash file =
      some (file.length,
        (file.length + chunkSum file 0 + chunkSum file (file.length - 65536))
          % U64MOD) := by
  have hc : CHUNKSIZE ≤ file.length := h
  have h65 : CHUNKSIZE = 65536 := rfl
  have h1 : hash_block file 0 = some (chunkSum file 0) :=
    hash_block_of_le file 0 (by omega)
  have hs : (if file.length > CHUNKSIZE then file.length - CHUNKSIZE else 0)
      = file.length - CHUNKSIZE := by
    split_ifs <;> omega
  have h2 : hash_block file (file.length - CHUNKSIZE)
      = some (chunkSum file (file.length - CHUNKSIZE)) :=
    hash_block_of_le file _ (by omega)
  simp only [size_and_hash, h1, hs, h2]
  rfl

/-- Witness for C1: the all-zero 70000-byte file hashes to `70000` (both
chunk sums are zero, and `70000 < 2 ^ 64`). -/
theorem C1_witness :
    size_and_hash (List.replicate 70000 0) = some (70000, 70000) := by
  have h := C1_size_and_hash (List.replicate 70000 0)
    (by rw [List.length_replicate]; norm_num)
  rw [List.length_replicate, chunkSum_replicate_zero, chunkSum_replicate_zero] at h
  rw [h]
  norm_num [U64MOD]

/-- C7: a file shorter than `65536` bytes makes the head-chunk `read_exact`
fail, so `size_and_hash` returns an error (`none`) and no pair at all. -/
theorem C7_short_file (file : List Nat) (h : file.length < 65536) :
    hash_block file 0 = none ∧ size_and_hash file = none := by
  have h65 : CHUNKSIZE = 65536 := rfl
  have h1 : hash_block file 0 = none := hash_block_of_lt file 0 (by omega)
  exact ⟨h1, by simp only [size_and_hash, h1]⟩

/-- Witness for C7: the empty file is rejected. -/
theorem C7_witness :
    hash_block ([] : List Nat) 0 = none ∧ size_and_hash [] = none :=
  C7_short_file [] (by simp)

/-! ## Candidate model and ranking (`src/subtitle.rs`) -/

/-- Model of an `f64` score as used by the program: either NaN or a numeric
value (modelled by a rational, which is order-faithful for the comparisons
the code performs; no float arithmetic is ever done on scores). -/
inductive F64 where
  | nan : F64
  | val (q : ℚ) : F64
deriving DecidableEq

/-- `f64::is_nan`. -/
def F64.isNaN : F64 → Bool
  | .nan => true
  | .val _ => false

/-- The result of `partial_cmp` on two non-NaN doubles: total comparison of
the numeric values. -/
def cmpQ (x y : ℚ) : Ordering :=
  if x < y then .lt else if x = y then .eq else .gt

/-- `Sub` from `subtitle.rs` (primed because `Sub` is taken in Lean): one
subtitle offer. -/
structure Sub' where
  url : String
  score : F64
  lang : String
  format : String
deriving DecidableEq

/-- `score_cmp` from `subtitle.rs`: orders two subs by score, higher or
non-NaN first; two NaNs are equal, a NaN is `Greater` (sorts after) any
number, and otherwise the comparison is `b.score` against `a.score`. -/
def score_cmp (a b : Sub') : Ordering :=
  match a.score, b.score with
  | .nan, .nan => .eq
  | .nan, .val _ => .gt
  | .val _, .nan => .lt
  | .val x, .val y => cmpQ y x

/-- The non-strict order induced by `score_cmp`: `a` may come before `b`
in the sorted output exactly when the comparator does not say `Greater`. -/
def subLe (a b : Sub') : Prop := score_cmp a b ≠ Ordering.gt

instance : DecidableRel subLe := fun a b =>
  inferInstanceAs (Decidable (score_cmp a b ≠ Ordering.gt))

/-- `cmpQ` answers `gt` exactly when the first value is larger. -/
theorem cmpQ_eq_gt_iff (x y : ℚ) : cmpQ x y = .gt ↔ y < x := by
  unfold cmpQ
  split_ifs with h1 h2
  · simp [lt_asymm h1]
  · simp [h2]
  · have hyx : y < x := lt_of_le_of_ne (not_lt.mp h1) (fun he => h2 he.symm)
    simp [hyx]

instance : IsTotal Sub' subLe := by
  constructor
  intro a b
  unfold subLe score_cmp
  rcases ha : a.score with _ | x <;> rcases hb : b.score with _ | y <;>
    simp [cmpQ_eq_gt_iff]
  exact le_total y x

instance : IsTrans Sub' subLe := by
  constructor
  intro a b c hab hbc
  unfold subLe score_cmp at *
  rcases ha : a.score with _ | x <;> rcases hb : b.score with _ | y <;>
    rcases hc : c.score with _ | z <;> simp_all [cmpQ_eq_gt_iff]
  exact le_trans hbc hab

/-- `get_lang` from `subtitle.rs`: filter the subs to the given language
(exact string equality) and sort them with `sort_by(score_cmp)`.  Rust's
`sort_by` is a stable sort, and a stable sort by a total transitive
comparator has a unique result, so it is modelled by the (stable)
insertion sort on `subLe`. -/
def get_lang (subs : List Sub') (lang : String) : List Sub' :=
  List.insertionSort subLe (subs.filter (fun i => i.lang == lang))

/-! ### Historical revision of `get_lang` in `src/main.rs`

`main.rs`'s `get_lang` sorts with
`sort_by(|a, b| b.score.partial_cmp(&a.score).unwrap())`.  `partial_cmp`
returns `None` whenever either score is NaN, so the `unwrap` panics as soon
as the sort compares a NaN score with anything; a sort of two or more
elements compares every element at least once. -/

/-- `PartialOrd::partial_cmp` on doubles: `None` iff either side is NaN. -/
def f64_cmp_opt : F64 → F64 → Option Ordering
  | .val x, .val y => some (cmpQ x y)
  | _, _ => none

/-- The comparator of `main.rs`'s `get_lang` on the panic-free domain; the
`getD` default is arbitrary and never reached when no score is NaN. -/
def main_score_le (a b : Sub') : Prop :=
  (f64_cmp_opt b.score a.score).getD Ordering.eq ≠ Ordering.gt

instance : DecidableRel main_score_le := fun a b =>
  inferInstanceAs
    (Decidable ((f64_cmp_opt b.score a.score).getD Ordering.eq ≠ Ordering.gt))

/-- `get_lang` from `main.rs`: same filter, but the sort panics (modelled as
`none`) when it must compare a NaN score, i.e. when the filtered list has
at least two elements and contains a NaN score. -/
def main_get_lang (subs : List Sub') (lang : String) : Option (List Sub') :=
  let ls := subs.filter (fun i => i.lang == lang)
  if 2 ≤ ls.length ∧ (ls.any fun s => s.score.isNaN) = true then none
  else some (List.insertionSort main_score_le ls)

/-! ### Ranking theorems -/

/-- The spec's description of the ranking order: descending by score with a
NaN-low policy (a NaN never precedes a number, two NaNs tie). -/
def specDescNaNLow (a b : Sub') : Prop :=
  match a.score, b.score with
  | .nan, .nan => True
  | .nan, .val _ => False
  | .val _, .nan => True
  | .val x, .val y => y ≤ x

/-- The comparator-induced order implies the spec's descending NaN-low
order. -/
theorem subLe_imp_specDescNaNLow (a b : Sub') (h : subLe a b) :
    specDescNaNLow a b := by
  unfold subLe score_cmp at h
  unfold specDescNaNLow
  rcases ha : a.score with _ | x <;> rcases hb : b.score with _ | y <;>
    simp_all [cmpQ_eq_gt_iff]

/-- A five-candidate roster realizing the spec's NaN-ordering test vector:
scores `[5.0, NaN, 2.0, NaN, 9.0]`, all for language `"eng"`. -/
def mkSub (u : String) (s : F64) : Sub' := ⟨u, s, "eng", "srt"⟩

/-- The input list of the spec's NaN-ordering example. -/
def c2_example : List Sub' :=
  [mkSub "a" (F64.val 5), mkSub "b" F64.nan, mkSub "c" (F64.val 2),
   mkSub "d" F64.nan, mkSub "e" (F64.val 9)]

/-- C2: `get_lang` keeps exactly the candidates whose `lang` equals the
token (case-sensitive string equality), orders them descending by score
with NaN sorting last (ties, including NaN pairs, keep input order), and on
the spec's example scores `[5, NaN, 2, NaN, 9]` produces
`[9, 5, 2, NaN, NaN]` with the two NaNs in input order. -/
theorem C2_rank (subs : List Sub') (lang : String) :
    (get_lang subs lang).Perm (subs.filter (fun i => i.lang == lang)) ∧
    (∀ s : Sub', s ∈ get_lang subs lang ↔ s ∈ subs ∧ s.lang = lang) ∧
    (get_lang subs lang).Sorted specDescNaNLow ∧
    (get_lang c2_example "eng").map Sub'.url = ["e", "a", "c", "b", "d"] ∧
    (get_lang c2_example "eng").map Sub'.score =
      [F64.val 9, F64.val 5, F64.val 2, F64.nan, F64.nan] := by
  refine ⟨List.perm_insertionSort subLe _, ?_, ?_, by decide, by decide⟩
  · intro s
    simp [get_lang, List.mem_insertionSort, List.mem_filter]
  · exact (List.sorted_insertionSort subLe _).imp
      (fun h => subLe_imp_specDescNaNLow _ _ h)

/-- C10: the sort inside `get_lang` is stable for every tie of the
comparator: a pair of candidates in input (filtered) order whose scores
compare `Equal` stays in that relative order in the ranked output. -/
theorem C10_stable_ties (subs : List Sub') (lang : String) (a b : Sub')
    (hsub : [a, b].Sublist (subs.filter (fun i => i.lang == lang)))
    (heq : score_cmp a b = Ordering.eq) :
    [a, b].Sublist (get_lang subs lang) := by
  unfold get_lang
  exact List.pair_sublist_insertionSort (by simp [subLe, heq]) hsub

/-- Witness for C10: two distinct candidates with equal scores stay in
input order. -/
theorem C10_witness :
    [mkSub "x" (F64.val 1), mkSub "y" (F64.val 1)].Sublist
      (get_lang [mkSub "x" (F64.val 1), mkSub "y" (F64.val 1)] "eng") :=
  C10_stable_ties _ "eng" _ _ (by decide) (by decide)

/-! ## XML-RPC values and candidate extraction (`src/subtitle.rs`) -/

/-- Model of `xmlrpc::Value`.  Payloads irrelevant to this program are kept
abstract enough (`dateTime` as a string, `base64` as bytes); a struct is an
association list with unique keys, in the key order of Rust's `BTreeMap`. -/
inductive Value where
  | int (i : Int)
  | bool (b : Bool)
  | str (s : String)
  | double (d : F64)
  | dateTime (s : String)
  | base64 (bytes : List Nat)
  | strct (m : List (String × Value))
  | array (l : List Value)
  | nil

/-- `Value::as_str`: the payload of the `String` variant only. -/
def Value.as_str : Value → Option String
  | .str s => some s
  | _ => none

/-- `Value::as_f64`: the payload of the `Double` variant only (exactly the
extraction `main.rs` spells out as `val_to_float`). -/
def Value.as_f64 : Value → Option F64
  | .double d => some d
  | _ => none

/-- `Value::as_struct`: the mapping of the `Struct` variant only. -/
def Value.as_struct : Value → Option (List (String × Value))
  | .strct m => some m
  | _ => none

/-- `BTreeMap::get` on the association-list model of a struct. -/
def mapGet (m : List (String × Value)) (k : String) : Option Value :=
  (m.find? (fun p => p.1 == k)).map Prod.snd

/-- `match_to_sub` from `subtitle.rs`: `None` unless the value is a struct
with a string `SubDownloadLink`; `SubLanguageID`, `Score` and `SubFormat`
fall back to `"nolang"`, `0.0` and `"srt"` when absent or wrongly typed. -/
def match_to_sub (v : Value) : Option Sub' :=
  match v.as_struct with
  | none => none
  | some data =>
    match (mapGet data "SubDownloadLink").bind Value.as_str with
    | none => none
    | some url =>
      some ⟨url,
            ((mapGet data "Score").bind Value.as_f64).getD (F64.val 0),
            ((mapGet data "SubLanguageID").bind Value.as_str).getD "nolang",
            ((mapGet data "SubFormat").bind Value.as_str).getD "srt"⟩

/-- C3: on a struct record, `match_to_sub` returns `None` exactly when no
string-typed `SubDownloadLink` is present; otherwise it returns the
candidate with that url and the defaulted `lang`/`score`/`format` fields;
the spec's default-substitution vector comes out as stated. -/
theorem C3_match_to_sub (data : List (String × Value)) :
    (match_to_sub (Value.strct data) = none ↔
      (mapGet data "SubDownloadLink").bind Value.as_str = none) ∧
    (∀ url : String, (mapGet data "SubDownloadLink").bind Value.as_str = some url →
      match_to_sub (Value.strct data) =
        some ⟨url,
              ((mapGet data "Score").bind Value.as_f64).getD (F64.val 0),
              ((mapGet data "SubLanguageID").bind Value.as_str).getD "nolang",
              ((mapGet data "SubFormat").bind Value.as_str).getD "srt"⟩) ∧
    match_to_sub (Value.strct [("SubDownloadLink", Value.str "u")]) =
      some ⟨"u", F64.val 0, "nolang", "srt"⟩ := by
  refine ⟨?_, ?_, rfl⟩
  · cases h : (mapGet data "SubDownloadLink").bind Value.as_str <;>
      simp [match_to_sub, Value.as_struct, h]
  · intro url h
    simp [match_to_sub, Value.as_struct, h]

/-- Witness for C3 (the defaulting branch at a concrete record). -/
theorem C3_witness :
    match_to_sub (Value.strct [("SubDownloadLink", Value.str "u")]) =
      some ⟨"u", F64.val 0, "nolang", "srt"⟩ :=
  (C3_match_to_sub [("SubDownloadLink", Value.str "u")]).2.1 "u" rfl

/-- C9: a raw hit that is not a struct at all is dropped silently:
`match_to_sub` is `None` for every non-struct value. -/
theorem C9_non_struct (v : Value) (h : v.as_struct = none) :
    match_to_sub v = none := by
  unfold match_to_sub
  rw [h]

/-- Witness for C9: a string hit and an array hit are both dropped. -/
theorem C9_witness :
    match_to_sub (Value.str "hit") = none ∧
    match_to_sub (Value.array []) = none :=
  ⟨C9_non_struct (Value.str "hit") rfl, C9_non_struct (Value.array []) rfl⟩

/-! ## Search request construction (`src/api.rs`, duplicated in `src/main.rs`) -/

/-- Rust's `format!("{:x}", hash)`: minimal-width lowercase hexadecimal,
`"0"` for zero, no leading zeroes, no padding. -/
def hex_str (n : Nat) : String := String.mk (Nat.toDigits 16 n)

/-- `make_req` from `api.rs` (textually identical in `main.rs`): the
single-query struct, with keys in `BTreeMap` (sorted) order. -/
def make_req (lang : String) (size hash : Nat) : Value :=
  Value.strct
    [("moviebytesize", Value.str (toString size)),
     ("moviehash", Value.str (hex_str hash)),
     ("sublanguageid", Value.str lang)]

/-- The `moviehash` field of a built request. -/
def req_moviehash (lang : String) (size hash : Nat) : Option Value :=
  mapGet ((make_req lang size hash).as_struct.getD []) "moviehash"

/-- Counterexample to C5: the rendering is `{:x}`, which is not
fixed-width — hash `0` renders as the 1-character `"0"` while hash `16`
renders as the 2-character `"10"`. -/
theorem C5_counterexample :
    req_moviehash "eng" 5 0 = some (Value.str "0") ∧
    req_moviehash "eng" 5 16 = some (Value.str "10") ∧
    ("0" : String).length ≠ ("10" : String).length := by
  refine ⟨rfl, rfl, by decide⟩

/-- C5 (amended): `moviehash` is the hash rendered as minimal-width
lowercase hexadecimal (Rust `{:x}`, so not zero-padded to a fixed width),
`moviebytesize` is the size rendered in decimal, and `sublanguageid` is the
language string, for every hash and size. -/
theorem C5_make_req (lang : String) (size hash : Nat) :
    mapGet ((make_req lang size hash).as_struct.getD []) "moviehash" =
      some (Value.str (hex_str hash)) ∧
    mapGet ((make_req lang size hash).as_struct.getD []) "moviebytesize" =
      some (Value.str (toString size)) ∧
    mapGet ((make_req lang size hash).as_struct.getD []) "sublanguageid" =
      some (Value.str lang) :=
  ⟨rfl, rfl, rfl⟩

/-! ## Output file naming (`src/subtitle.rs`, `download_subtitle(s)`) -/

/-- Char-level split of a path at `/` separators. -/
def splitSlashAux (cur : List Char) : List Char → List String
  | [] => [String.mk cur.reverse]
  | c :: rest =>
    if c = '/' then String.mk cur.reverse :: splitSlashAux [] rest
    else splitSlashAux (c :: cur) rest

/-- All `/`-separated pieces of a path string. -/
def splitSlash (p : String) : List String := splitSlashAux [] p.toList

/-- The `Normal` components of a path: models `std::path::Path` parsing,
which drops empty pieces (repeated or trailing separators, the root) and
`.` pieces. -/
def pathComponents (p : String) : List String :=
  (splitSlash p).filter (fun c => !(c == "" || c == "."))

/-- Models `Path::file_name`: the last normal component, or `None` when the
path is empty, is a root, or ends in `..`. -/
def fileName (p : String) : Option String :=
  match (pathComponents p).getLast? with
  | none => none
  | some c => if c = ".." then none else some c

/-- Index of the last `.` in a character list, if any. -/
def lastDotIdx : List Char → Option Nat
  | [] => none
  | c :: rest =>
    match lastDotIdx rest with
    | some i => some (i + 1)
    | none => if c = '.' then some 0 else none

/-- Models the stem half of Rust's `split_file_at_dot` on a file name: the
whole name when it has no `.` or its only `.` is leading; otherwise the
part before the last `.`. -/
def stemOfName (n : String) : String :=
  match lastDotIdx n.toList with
  | none => n
  | some 0 => n
  | some i => String.mk (n.toList.take i)

/-- `fname_base` in `download_subtitles`:
`fname_path.file_stem().map(PathBuf::from).unwrap_or(fname_path)` — the
file-name component with its extension stripped, falling back to the whole
path when there is no file name.  Note `file_stem` keeps no directory. -/
def fname_base (p : String) : String :=
  match fileName p with
  | some n => stemOfName n
  | none => p

/-- The file-name construction in `download_subtitle`: the base with
`.{lang}-{i}.{format}` pushed when an index is given, else
`.{lang}.{format}`. -/
def download_subtitle_name (base lang : String) (idx : Option Nat) (sub : Sub') :
    String :=
  match idx with
  | some i => base ++ "." ++ lang ++ "-" ++ toString i ++ "." ++ sub.format
  | none => base ++ "." ++ lang ++ "." ++ sub.format

/-- `Which` from `subtitle.rs`. -/
inductive Which where
  | Best
  | All

/-- The output names `download_subtitles` constructs for one language
group: the top candidate without index for `Best`, every candidate with
its 1-based enumeration index for `All`. -/
def output_names (fname lang : String) (which : Which) (lang_subs : List Sub') :
    List String :=
  match which with
  | .Best =>
    (lang_subs.take 1).map
      (fun s => download_subtitle_name (fname_base fname) lang none s)
  | .All =>
    lang_subs.enum.map
      (fun p => download_subtitle_name (fname_base fname) lang (some (p.1 + 1)) p.2)

/-- A candidate with the defaulted format, for the naming vectors. -/
def srt_sub : Sub' := ⟨"http:u", F64.val 0, "eng", "srt"⟩

/-- Counterexample to C4: for the source path `"/videos/movie.mkv"` the
code produces the bare `"movie.eng.srt"` (the `file_stem` drops the
directory), not `"/videos/movie.eng.srt"` — the file is not written
alongside the source file. -/
theorem C4_counterexample :
    download_subtitle_name (fname_base "/videos/movie.mkv") "eng" none srt_sub
        = "movie.eng.srt" ∧
    "movie.eng.srt" ≠ "/videos/movie.eng.srt" :=
  ⟨rfl, by decide⟩

/-- C4 (amended): the base of the output name is the source path's final
component with its extension stripped (falling back to the whole path when
there is no file-name component); `Best` appends `.{lang}.{format}`, `All`
appends `.{lang}-{n}.{format}` with 1-based `n`; the directory of the
source path does not survive into the name (so the file lands in the
current working directory), as the concrete vectors show. -/
theorem C4_output_names (fname lang : String) (subs : List Sub') :
    output_names fname lang Which.Best subs =
      (subs.take 1).map
        (fun s => fname_base fname ++ "." ++ lang ++ "." ++ s.format) ∧
    output_names fname lang Which.All subs =
      subs.enum.map
        (fun p => fname_base fname ++ "." ++ lang ++ "-" ++ toString (p.1 + 1)
          ++ "." ++ p.2.format) ∧
    (fileName fname = none → fname_base fname = fname) ∧
    fname_base "/videos/movie.mkv" = "movie" ∧
    fname_base "movie.mkv" = "movie" ∧
    output_names "movie.mkv" "eng" Which.Best [srt_sub] = ["movie.eng.srt"] ∧
    output_names "movie.mkv" "eng" Which.All [srt_sub, srt_sub] =
      ["movie.eng-1.srt", "movie.eng-2.srt"] := by
  refine ⟨rfl, rfl, ?_, rfl, rfl, rfl, rfl⟩
  intro h
  unfold fname_base
  rw [h]

/-- Witness for C4 (amended): the fallback branch at a concrete path with
no file-name component. -/
theorem C4_witness : fname_base ".." = ".." :=
  ((C4_output_names ".." "eng" []).2.2.1) rfl

/-! ## Materialization (`src/subtitle.rs`, `download_to_file` and the
candidate loop of `download_subtitles`) -/

/-- `Error` from `error.rs`; payloads of foreign error types are dropped. -/
inductive Error where
  | io
  | ost (msg : String)
  | xmlRpcRequest
  | xmlRpcFault
  | reqwest
deriving DecidableEq

/-- The result of running a code path that can return a value, return an
`Err` (which `print_if_err` reports and swallows), or panic.  A panic
unwinds and aborts the whole process. -/
inductive Outcome (α : Type) where
  | ok (a : α)
  | err (e : Error)
  | panicked
deriving DecidableEq

/-- Whether an outcome is a returned-and-reportable `Err`. -/
def Outcome.isErr {α : Type} : Outcome α → Bool
  | .err _ => true
  | _ => false

/-- The effects `download_to_file` performs, as oracles: the HTTP `get`,
`File::create`, reading the response body, gzip decoding, `write_all`.
`none`/`false` is that step failing. -/
structure Env where
  get : String → Option Unit
  create : String → Bool
  read_body : String → Option (List Nat)
  gunzip : List Nat → Option (List Nat)
  write_all : String → List Nat → Bool

/-- `download_to_file` from `subtitle.rs`: `reqwest::get(url)?`,
`File::create(path)?` and `read_to_end`/`write_all` propagate failures as
`Err` via `?`; but `Decoder::new(..).unwrap()` and the decoder's
`read_to_end(..).unwrap()` panic when the payload is not valid gzip. -/
def download_to_file (env : Env) (url path : String) : Outcome Unit :=
  match env.get url with
  | none => .err .reqwest
  | some _ =>
    if env.create path then
      match env.read_body url with
      | none => .err .io
      | some gz =>
        match env.gunzip gz with
        | none => .panicked
        | some data => if env.write_all path data then .ok () else .err .io
    else .err .io

/-- `download_subtitle` from `subtitle.rs`: build the name, download into
it (the status `println` has no further effect on the outcome). -/
def download_subtitle_run (env : Env) (base lang : String) (idx : Option Nat)
    (sub : Sub') : Outcome Unit :=
  download_to_file env sub.url (download_subtitle_name base lang idx sub)

/-- The `Which::All` candidate loop of `download_subtitles`: each
candidate's result goes through `print_if_err` and is dropped, so an `Err`
lets the iteration continue with the next sibling; a panic aborts. -/
def run_all (env : Env) (base lang : String) : List Sub' → Nat → Outcome Unit
  | [], _ => .ok ()
  | s :: rest, i =>
    match download_subtitle_run env base lang (some i) s with
    | .panicked => .panicked
    | _ => run_all env base lang rest (i + 1)

/-- An environment whose payloads never gzip-decode. -/
def env_badgz : Env :=
  ⟨fun _ => some (), fun _ => true, fun _ => some [0], fun _ => none,
   fun _ _ => true⟩

/-- An environment where gzip decoding always succeeds but the network
`get` fails for the url `"ua"`. -/
def env_goodgz : Env :=
  ⟨fun u => if u = "ua" then none else some (), fun _ => true,
   fun _ => some [], fun gz => some gz, fun _ _ => true⟩

/-- Candidates used in the materialization vectors. -/
def sub_a : Sub' := mkSub "ua" (F64.val 1)

/-- Second candidate used in the materialization vectors. -/
def sub_b : Sub' := mkSub "ub" (F64.val 2)

/-- Counterexample to C6: a candidate whose payload fails to
gzip-decompress does not produce a swallowed `Err` — the `unwrap` panics,
and the candidate loop aborts instead of continuing with the sibling. -/
theorem C6_counterexample :
    download_to_file env_badgz "ua" "movie.eng.srt" = Outcome.panicked ∧
    (download_to_file env_badgz "ua" "movie.eng.srt").isErr = false ∧
    run_all env_badgz "movie" "eng" [sub_a, sub_b] 1 = Outcome.panicked :=
  ⟨rfl, rfl, rfl⟩

/-- C6 (amended): when every payload gzip-decodes, `download_to_file`
never panics — every failure (network, file creation, body read, write) is
a returned `Err` — and the candidate loop swallows those errors and always
finishes the whole sibling list; but a gzip-decompression failure panics
(aborting the process), as the counterexample shows. -/
theorem C6_download_errors (env : Env) (base lang : String)
    (hgz : ∀ gz : List Nat, (env.gunzip gz).isSome = true) :
    (∀ url path : String, download_to_file env url path ≠ Outcome.panicked) ∧
    (∀ subs : List Sub', ∀ i : Nat,
      run_all env base lang subs i = Outcome.ok ()) := by
  have hdl : ∀ url path : String,
      download_to_file env url path ≠ Outcome.panicked := by
    intro url path
    unfold download_to_file
    cases hg : env.get url with
    | none => simp
    | some u =>
      by_cases hc : env.create path
      · cases hr : env.read_body url with
        | none => simp [hc, hr]
        | some gz =>
          obtain ⟨d, hd⟩ := Option.isSome_iff_exists.mp (hgz gz)
          by_cases hw : env.write_all path d <;> simp [hc, hr, hd, hw]
      · simp [hc]
  refine ⟨hdl, ?_⟩
  intro subs
  induction subs with
  | nil => intro i; rfl
  | cons s rest ih =>
    intro i
    cases hres : download_subtitle_run env base lang (some i) s with
    | panicked => exact absurd hres (hdl _ _)
    | ok a => simp only [run_all, hres]; exact ih (i + 1)
    | err e => simp only [run_all, hres]; exact ih (i + 1)

/-- Witness for C6 (amended): with decodable payloads, a network failure
on the first candidate is swallowed and the second is still processed; the
loop finishes. -/
theorem C6_witness :
    run_all env_goodgz "movie" "eng" [sub_a, sub_b] 1 = Outcome.ok () :=
  (C6_download_errors env_goodgz "movie" "eng" (fun _ => rfl)).2 [sub_a, sub_b] 1

/-! ## Equivalence of the duplicated historical core (`main.rs`) with the
modular core (`hash.rs`, `subtitle.rs`) -/

/-- When the window is fully inside the file, `main.rs`'s plain `read`
fills the whole buffer: no zero padding remains. -/
theorem main_read_buf_full (file : List Nat) (pos : Nat)
    (h : pos + CHUNKSIZE ≤ file.length) :
    main_read_buf file pos = (file.drop pos).take CHUNKSIZE := by
  unfold main_read_buf
  have hl : ((file.drop pos).take CHUNKSIZE).length = CHUNKSIZE := by
    rw [List.length_take, List.length_drop]
    omega
  rw [hl, Nat.sub_self]
  simp

/-- On a fully available window the two `hash_block` revisions agree. -/
theorem main_hash_block_of_le (file : List Nat) (pos : Nat)
    (h : pos + CHUNKSIZE ≤ file.length) :
    main_hash_block file pos = chunkSum file pos := by
  unfold main_hash_block
  rw [main_read_buf_full file pos h, wrapSum_eq_sum_mod]
  rfl

/-- `orderedInsert` only consults the relation against members of the
list, so relations agreeing there insert identically. -/
theorem orderedInsert_rel_congr {α : Type} {r s : α → α → Prop}
    [DecidableRel r] [DecidableRel s] (x : α) (l : List α)
    (h : ∀ b ∈ l, (r x b ↔ s x b)) :
    List.orderedInsert r x l = List.orderedInsert s x l := by
  induction l with
  | nil => rfl
  | cons b t ih =>
    rw [List.orderedInsert, List.orderedInsert]
    by_cases hb : r x b
    · rw [if_pos hb, if_pos ((h b (List.mem_cons_self b t)).mp hb)]
    · rw [if_neg hb, if_neg (fun hs2 => hb ((h b (List.mem_cons_self b t)).mpr hs2)),
        ih (fun c hc => h c (List.mem_cons_of_mem b hc))]

/-- Insertion sort only consults the relation on pairs of list members, so
relations agreeing on those pairs sort identically. -/
theorem insertionSort_rel_congr {α : Type} {r s : α → α → Prop}
    [DecidableRel r] [DecidableRel s] (l : List α)
    (h : ∀ a ∈ l, ∀ b ∈ l, (r a b ↔ s a b)) :
    List.insertionSort r l = List.insertionSort s l := by
  induction l with
  | nil => rfl
  | cons a t ih =>
    rw [List.insertionSort, List.insertionSort,
      ih (fun x hx y hy =>
        h x (List.mem_cons_of_mem a hx) y (List.mem_cons_of_mem a hy))]
    exact orderedInsert_rel_congr a _ (fun b hb =>
      h a (List.mem_cons_self a t) b
        (List.mem_cons_of_mem a ((List.mem_insertionSort s).mp hb)))

/-- A score that is not NaN is a numeric value. -/
theorem F64.eq_val_of_isNaN_false (x : F64) (h : x.isNaN = false) :
    ∃ q : ℚ, x = F64.val q := by
  cases x with
  | nan => simp [F64.isNaN] at h
  | val q => exact ⟨q, rfl⟩

/-- Counterexample to C8: the two revisions disagree.  On the empty file
`hash.rs`'s `size_and_hash` fails (`read_exact` errors) while `main.rs`'s
succeeds with `(0, 0)` (`read` zero-fills); and on a two-candidate list
with a NaN score `main.rs`'s `get_lang` panics (its sort unwraps
`partial_cmp`) while `subtitle.rs`'s returns the NaN-low ordering. -/
theorem C8_counterexample :
    size_and_hash ([] : List Nat) = none ∧
    main_size_and_hash ([] : List Nat) = (0, 0) ∧
    main_get_lang [mkSub "n" F64.nan, mkSub "m" (F64.val 1)] "eng" = none ∧
    get_lang [mkSub "n" F64.nan, mkSub "m" (F64.val 1)] "eng" =
      [mkSub "m" (F64.val 1), mkSub "n" F64.nan] := by
  have hb : hash_block ([] : List Nat) 0 = none :=
    hash_block_of_lt [] 0 (by norm_num [CHUNKSIZE])
  have hmb : main_hash_block ([] : List Nat) 0 = 0 := by
    unfold main_hash_block main_read_buf
    simp [wrapSum_eq_sum_mod, words_replicate_zero_sum]
  refine ⟨by simp only [size_and_hash, hb], ?_, by decide, by decide⟩
  have hnot : ¬ (([] : List Nat).length > CHUNKSIZE) := by
    norm_num [CHUNKSIZE]
  simp only [main_size_and_hash, if_neg hnot, hmb]
  norm_num [U64MOD]

/-- C8 (amended): the two revisions agree on their common domain — every
file of at least `65536` bytes hashes identically, and every candidate
list whose language group has no NaN score ranks identically; the
counterexample shows both restrictions are necessary. -/
theorem C8_equiv (file : List Nat) (subs : List Sub') (lang : String)
    (hf : 65536 ≤ file.length)
    (hn : ∀ s ∈ subs.filter (fun i => i.lang == lang), s.score.isNaN = false) :
    size_and_hash file = some (main_size_and_hash file) ∧
    main_get_lang subs lang = some (get_lang subs lang) := by
  constructor
  · have hc : CHUNKSIZE ≤ file.length := hf
    have hs : (if file.length > CHUNKSIZE then file.length - CHUNKSIZE else 0)
        = file.length - CHUNKSIZE := by split_ifs <;> omega
    have h1 := hash_block_of_le file 0 (by omega)
    have h2 := hash_block_of_le file (file.length - CHUNKSIZE) (by omega)
    have m1 := main_hash_block_of_le file 0 (by omega)
    have m2 := main_hash_block_of_le file (file.length - CHUNKSIZE) (by omega)
    simp only [size_and_hash, main_size_and_hash, hs, h1, h2, m1, m2]
  · have hany : ((subs.filter (fun i => i.lang == lang)).any
        fun s => s.score.isNaN) = false := by
      rw [List.any_eq_false]
      intro x hx
      simp [hn x hx]
    simp only [main_get_lang, get_lang]
    rw [if_neg (fun hC => by rw [hany] at hC; exact absurd hC.2 (by simp))]
    exact congrArg some (insertionSort_rel_congr _ (fun a ha b hb => by
      obtain ⟨qa, hqa⟩ := F64.eq_val_of_isNaN_false _ (hn a ha)
      obtain ⟨qb, hqb⟩ := F64.eq_val_of_isNaN_false _ (hn b hb)
      simp [main_score_le, subLe, score_cmp, f64_cmp_opt, hqa, hqb]))

/-- Witness for C8 (amended): a 65536-byte file and a NaN-free
single-candidate list, where both revisions agree. -/
theorem C8_witness :
    size_and_hash (List.replicate 65536 0) =
      some (main_size_and_hash (List.replicate 65536 0)) ∧
    main_get_lang [mkSub "m" (F64.val 1)] "eng" =
      some (get_lang [mkSub "m" (F64.val 1)] "eng") :=
  C8_equiv _ _ "eng" (by rw [List.length_replicate]) (by decide)
